import Mathlib

/-!
Shallow embedding of the model version registry and A/B experimentation
engine of `backend/ml/utils/model_manager.py` (classes `ModelVersion`,
`ModelManager`, `ABTestManager`).

Modelling conventions:
* Python `float` values are embedded as exact rationals `ℚ`; the single
  IEEE special value the code produces, `float('inf')`, is embedded as an
  explicit constructor of the `Pct` type below.
* Python `dict`s are embedded as association lists with first-key lookup
  (`alookup`) and assign-or-append update (`insertA`), matching dict
  semantics for the unique-key dictionaries the code builds.
* Timestamps (`created_at`) are abstract `Nat` ticks; only their ordering
  matters to the code under study.
* File persistence (`save_tests`, `active_versions.json` writes) mirrors
  the in-memory dictionaries, so the in-memory state is the one modelled;
  `np.sqrt` appears only inside `std_dev = sqrt(max(0, variance))`, a
  strictly monotone function of the clamped variance, so `ArmStat` stores
  the clamped variance (the square of the reported standard deviation)
  to stay inside `ℚ`.
-/

namespace AutoGrader

/-- First-match lookup in an association list (Python `dict.get` for the
unique-key dictionaries built by the code). -/
def alookup {α : Type} : List (String × α) → String → Option α
  | [], _ => none
  | (k, v) :: rest, q => if k = q then some v else alookup rest q

/-- Python `dict` assignment `d[k] = v`: replace the first binding of `k`,
or append a new binding. -/
def insertA {α : Type} : List (String × α) → String → α → List (String × α)
  | [], k, v => [(k, v)]
  | (k', v') :: rest, k, v =>
      if k' = k then (k, v) :: rest else (k', v') :: insertA rest k v

/-- The keys of an association list. -/
def akeys {α : Type} (l : List (String × α)) : List String :=
  l.map Prod.fst

/-- `ModelVersion` (model_manager.py:29): the registry data the manager
reads from one model directory.  `metadataMetrics` is `metadata['metrics']`
when that key is present, `metrics` is the content of `metrics.json`. -/
structure MVersion where
  version : String
  created_at : Nat
  metadataMetrics : Option (List (String × ℚ))
  metrics : List (String × ℚ)
deriving DecidableEq, Repr

/-- Shared body of `ModelVersion.get_accuracy` / `get_f1_score`
(model_manager.py:89-103): prefer `metadata['metrics']`, else fall back to
`metrics.json`, defaulting to `0.0`. -/
def getMetric (v : MVersion) (name : String) : ℚ :=
  match v.metadataMetrics with
  | some md => (alookup md name).getD 0
  | none => (alookup v.metrics name).getD 0

/-- `ModelVersion.get_accuracy` (model_manager.py:89). -/
def get_accuracy (v : MVersion) : ℚ :=
  getMetric v "accuracy"

/-- `ModelVersion.get_f1_score` (model_manager.py:97). -/
def get_f1_score (v : MVersion) : ℚ :=
  getMetric v "f1_score"

/-- A percent-change value as the code computes it: either the literal
Python `float('inf')` or a finite rational. -/
inductive Pct where
  | inf : Pct
  | fin : ℚ → Pct
deriving DecidableEq, Repr

/-- `Pct.isInf p` holds exactly when the value is the literal infinite
float `float('inf')`. -/
def Pct.isInf : Pct → Bool
  | .inf => true
  | .fin _ => false

/-- Python comparison `p > q` for a float that may be `float('inf')`. -/
def Pct.gt : Pct → ℚ → Bool
  | .inf, _ => true
  | .fin x, q => decide (q < x)

/-- Python comparison `p < q` for a float that may be `float('inf')`. -/
def Pct.lt : Pct → ℚ → Bool
  | .inf, _ => false
  | .fin x, q => decide (x < q)

/-- The percent-change expression the code repeats at
model_manager.py:406, 416 and 741:
`(y - x) / x * 100 if x > 0 else float('inf')`. -/
def pctChange (x y : ℚ) : Pct :=
  if 0 < x then .fin ((y - x) / x * 100) else .inf

/-- One entry of the `differences` dictionary built by
`ModelManager.compare_versions` (model_manager.py:399-417). -/
structure MetricDiff where
  value1 : ℚ
  value2 : ℚ
  difference : ℚ
  percent_change : Pct
deriving DecidableEq, Repr

/-- Builds one `differences` entry from the two looked-up metric values. -/
def mkDiff (x y : ℚ) : MetricDiff :=
  ⟨x, y, y - x, pctChange x y⟩

/-- In-memory state of `ModelManager` (model_manager.py:117):
`model_versions` maps a model type to its (newest-first sorted) version
list, `active_versions` is the resolved active-version dictionary. -/
structure MMState where
  model_versions : List (String × List MVersion)
  active_versions : List (String × MVersion)
deriving DecidableEq, Repr

/-- The version-scanning loop of `compare_versions`
(model_manager.py:380-384): `if v.version == version1: v1 = v
elif v.version == version2: v2 = v`, over the whole list. -/
def scanPair (vs : List MVersion) (v1 v2 : String) :
    Option MVersion × Option MVersion :=
  vs.foldl
    (fun acc v =>
      if v.version = v1 then (some v, acc.2)
      else if v.version = v2 then (acc.1, some v) else acc)
    (none, none)

/-- `ModelManager.compare_versions` (model_manager.py:361-419), restricted
to the `differences` dictionary it builds; `none` stands for the error
dictionaries returned when the type or either version is missing.  The
code compares exactly the two hard-coded metrics `accuracy` and
`f1_score` via `get_accuracy` / `get_f1_score`. -/
def compare_versions (s : MMState) (mt v1 v2 : String) :
    Option (List (String × MetricDiff)) :=
  match alookup s.model_versions mt with
  | none => none
  | some vs =>
      match scanPair vs v1 v2 with
      | (some a, some b) =>
          some [("accuracy", mkDiff (get_accuracy a) (get_accuracy b)),
                ("f1_score", mkDiff (get_f1_score a) (get_f1_score b))]
      | _ => none

/-- `ModelManager.get_active_version` (model_manager.py:245-255). -/
def get_active_version (s : MMState) (mt : String) : Option MVersion :=
  alookup s.active_versions mt

/-- `ModelManager.set_active_version` (model_manager.py:201-243): find the
version object, set it active (in memory and in the marker file); `false`
when the model type or the version is missing. -/
def set_active_version (s : MMState) (mt ver : String) : Bool × MMState :=
  match alookup s.model_versions mt with
  | none => (false, s)
  | some vs =>
      match vs.find? (fun v => decide (v.version = ver)) with
      | none => (false, s)
      | some v =>
          (true, { s with active_versions := insertA s.active_versions mt v })

/-- Removes the element at index `i` (the `del list[i]` of
model_manager.py:320). -/
def removeIdx {α : Type} : List α → Nat → List α
  | [], _ => []
  | _ :: rest, 0 => rest
  | x :: rest, n + 1 => x :: removeIdx rest n

/-- `ModelManager.delete_version` (model_manager.py:290-329): locate the
first list entry with the requested version string; refuse when it is the
resolved active version; otherwise drop it (directory removal assumed to
succeed). -/
def delete_version (s : MMState) (mt ver : String) : Bool × MMState :=
  match alookup s.model_versions mt with
  | none => (false, s)
  | some vs =>
      match vs.findIdx? (fun v => decide (v.version = ver)) with
      | none => (false, s)
      | some i =>
          match alookup s.active_versions mt with
          | some av =>
              if av.version = ver then (false, s)
              else (true, { s with
                model_versions := insertA s.model_versions mt (removeIdx vs i) })
          | none =>
              (true, { s with
                model_versions := insertA s.model_versions mt (removeIdx vs i) })

/-- Stable insertion into a newest-first list: the inserted element goes
before the first strictly-older element, and before elements of equal
`created_at` that came from later positions of the original list.  Folded
below, this is extensionally Python's stable
`sort(key=created_at, reverse=True)` of model_manager.py:164-169. -/
def insertDesc (v : MVersion) : List MVersion → List MVersion
  | [] => [v]
  | w :: ws =>
      if w.created_at ≤ v.created_at then v :: w :: ws
      else w :: insertDesc v ws

/-- Stable newest-first sort by `created_at` (model_manager.py:164-169).
The input list order is the registration order. -/
def sortDesc : List MVersion → List MVersion
  | [] => []
  | v :: vs => insertDesc v (sortDesc vs)

/-- The first element of the list attaining the maximal `created_at`:
the specification-level description of which version a stable newest-first
sort puts at the head. -/
def firstArgMax : List MVersion → Option MVersion
  | [] => none
  | v :: vs =>
      match firstArgMax vs with
      | none => some v
      | some w => if v.created_at < w.created_at then some w else some v

/-- One step of the marker-file resolution loop of
`determine_active_versions` (model_manager.py:187-192): for a
`(model_type, version)` pair of the `active_versions.json` content, bind
the first matching version object, if any. -/
def resolveStep (mv : List (String × List MVersion))
    (acc : List (String × MVersion)) (p : String × String) :
    List (String × MVersion) :=
  match ((alookup mv p.1).getD []).find?
      (fun v => decide (v.version = p.2)) with
  | some v => insertA acc p.1 v
  | none => acc

/-- Step one of `ModelManager.determine_active_versions`
(model_manager.py:180-194): resolve every marker-file entry. -/
def resolveFromFile (mv : List (String × List MVersion))
    (fd : List (String × String)) : List (String × MVersion) :=
  fd.foldl (resolveStep mv) []

/-- One step of the defaulting loop of `determine_active_versions`
(model_manager.py:196-199): a model type with versions and no active
entry yet defaults to the head of its (newest-first) version list. -/
def defaultStep (acc : List (String × MVersion))
    (p : String × List MVersion) : List (String × MVersion) :=
  if (alookup acc p.1).isSome then acc
  else
    match p.2 with
    | [] => acc
    | v :: _ => insertA acc p.1 v

/-- `ModelManager.determine_active_versions` (model_manager.py:176-199):
resolve the marker file, then default every still-unset model type with a
nonempty version list to its newest (head of the sorted list). -/
def determine_active_versions (mv : List (String × List MVersion))
    (fd : List (String × String)) : List (String × MVersion) :=
  mv.foldl defaultStep (resolveFromFile mv fd)

/-- `ModelManager.load_model_versions` (model_manager.py:132-174) composed
with `determine_active_versions`: `dirs` maps each model type to its
versions in registration order, `fd` is the `active_versions.json`
content. -/
def loadState (dirs : List (String × List MVersion))
    (fd : List (String × String)) : MMState :=
  let mv := dirs.map (fun p => (p.1, sortDesc p.2))
  { model_versions := mv, active_versions := determine_active_versions mv fd }

/-- Experiment status: `test['status']` is `'running'` or `'completed'`. -/
inductive TestStatus where
  | running : TestStatus
  | completed : TestStatus
deriving DecidableEq, Repr

/-- The winner string stored in `final_metrics['winner']`
(`None`, `'version_a'` or `'version_b'`), as `Option Winner`. -/
inductive Winner where
  | version_a : Winner
  | version_b : Winner
deriving DecidableEq, Repr

/-- The per-metric running-statistics triple
`{'sum': ..., 'sum_squared': ..., 'count': ...}` of
model_manager.py:666-670. -/
structure MetricStats where
  sum : ℚ
  sum_squared : ℚ
  count : Nat
deriving DecidableEq, Repr

/-- The zeroed triple the code lazily installs for a newly seen metric. -/
def zeroStats : MetricStats :=
  ⟨0, 0, 0⟩

/-- One arm's `results[version_key]` record: the `samples` counter plus
the per-metric statistics dictionary. -/
structure ArmResults where
  samples : Nat
  metrics : List (String × MetricStats)
deriving DecidableEq, Repr

/-- A final per-arm per-metric summary entry.  The code stores
`{'mean': mean, 'std_dev': sqrt(max(0, variance))}`
(model_manager.py:704-726); since `sqrt` is strictly monotone we store
the clamped variance `max 0 variance` (the square of `std_dev`). -/
structure ArmStat where
  mean : ℚ
  variance : ℚ
deriving DecidableEq, Repr

/-- One entry of the `comparisons` dictionary of model_manager.py:737-742:
`{'version_a': mean_a, 'version_b': mean_b, 'difference': mean_b - mean_a,
'percent_change': ...}`. -/
structure Comparison where
  mean_a : ℚ
  mean_b : ℚ
  difference : ℚ
  percent_change : Pct
deriving DecidableEq, Repr

/-- `test['final_metrics']` as stored by `end_test`
(model_manager.py:756-761). -/
structure FinalMetrics where
  version_a : List (String × ArmStat)
  version_b : List (String × ArmStat)
  comparisons : List (String × Comparison)
  winner : Option Winner
deriving DecidableEq, Repr

/-- One A/B test configuration record (model_manager.py:567-588).  The
wall-clock `start_date` / `end_date` strings are environment inputs that
no studied property reads, and are omitted. -/
structure ABTest where
  name : String
  model_type : String
  version_a : String
  version_b : String
  traffic_split : ℚ
  metrics : List String
  status : TestStatus
  results_a : ArmResults
  results_b : ArmResults
  final_metrics : Option FinalMetrics
deriving DecidableEq, Repr

/-- Combined state of `ABTestManager` and its underlying `ModelManager`. -/
structure ABState where
  mm : MMState
  tests : List (String × ABTest)
deriving DecidableEq, Repr

/-- The version-existence scan of `create_test`
(model_manager.py:549-553): `if v.version == version_a: found_a
elif v.version == version_b: found_b`. -/
def scanFound (vs : List MVersion) (va vb : String) : Bool × Bool :=
  vs.foldl
    (fun acc v =>
      if v.version = va then (true, acc.2)
      else if v.version = vb then (acc.1, true) else acc)
    (false, false)

/-- The test-configuration record of model_manager.py:567-588: status
running, zero samples, empty per-arm statistics dictionaries. -/
def newTest (name mt va vb : String) (split : ℚ) (tracked : List String) :
    ABTest :=
  { name := name, model_type := mt, version_a := va, version_b := vb,
    traffic_split := split, metrics := tracked, status := .running,
    results_a := ⟨0, []⟩, results_b := ⟨0, []⟩, final_metrics := none }

/-- `ABTestManager.create_test` (model_manager.py:521-595).  The
timestamp-derived `test_id` is an environment input, passed explicitly.
A falsy `metrics` argument (`None` or `[]`) is replaced by the default
`['accuracy', 'f1_score']`; `traffic_split` is stored unchecked; both
arms start with `samples = 0` and an empty statistics dictionary.
Returns `none` for the error dictionaries. -/
def create_test (s : ABState) (test_id name mt va vb : String)
    (traffic_split : ℚ) (metrics : List String) :
    Option ABTest × ABState :=
  match alookup s.mm.model_versions mt with
  | none => (none, s)
  | some vs =>
      match scanFound vs va vb with
      | (true, true) =>
          let t := newTest name mt va vb traffic_split
            (if metrics.isEmpty then ["accuracy", "f1_score"] else metrics)
          (some t, { s with tests := insertA s.tests test_id t })
      | _ => (none, s)

/-- The per-metric accumulation of model_manager.py:672-676:
`sum += value * sample_count; sum_squared += value * value * sample_count;
count += sample_count`. -/
def bumpStats (st : MetricStats) (v : ℚ) (n : Nat) : MetricStats :=
  ⟨st.sum + v * n, st.sum_squared + v * v * n, st.count + n⟩

/-- The arm update of model_manager.py:660-676: bump `samples`, then for
each reported metric lazily install a zero triple and accumulate. -/
def recordArm (r : ArmResults) (metricValues : List (String × ℚ))
    (n : Nat) : ArmResults :=
  { samples := r.samples + n,
    metrics := metricValues.foldl
      (fun ms p =>
        insertA ms p.1 (bumpStats ((alookup ms p.1).getD zeroStats) p.2 n))
      r.metrics }

/-- Writes the updated arm record back into the test, mirroring which of
`results['version_a']` / `results['version_b']` was selected. -/
def setArm (t : ABTest) (isA : Bool) (r : ArmResults) : ABTest :=
  if isA then { t with results_a := r } else { t with results_b := r }

/-- The arm record selected by the version string, per the
`if version == test['version_a'] ... elif version == test['version_b']`
dispatch of model_manager.py:652-658. -/
def armOf (t : ABTest) (isA : Bool) : ArmResults :=
  if isA then t.results_a else t.results_b

/-- `ABTestManager.update_test_metrics` (model_manager.py:623-679). -/
def update_test_metrics (s : ABState) (test_id ver : String)
    (metricValues : List (String × ℚ)) (sample_count : Nat) :
    Bool × ABState :=
  match alookup s.tests test_id with
  | none => (false, s)
  | some t =>
      if t.status ≠ .running then (false, s)
      else if ver = t.version_a then
        let t' := setArm t true (recordArm (armOf t true) metricValues sample_count)
        (true, { s with tests := insertA s.tests test_id t' })
      else if ver = t.version_b then
        let t' := setArm t false (recordArm (armOf t false) metricValues sample_count)
        (true, { s with tests := insertA s.tests test_id t' })
      else (false, s)

/-- The final per-arm statistics computation of model_manager.py:704-726:
for every metric with nonzero count, `mean = sum / count`,
`variance = sum_squared / count - mean²` clamped at `0`.  The source loop
assigns each (unique) key of the statistics dictionary once into a fresh
dictionary, which is exactly a `filterMap`. -/
def mkArmStat (d : MetricStats) : ArmStat :=
  ⟨d.sum / (d.count : ℚ),
    max 0 (d.sum_squared / (d.count : ℚ) -
      d.sum / (d.count : ℚ) * (d.sum / (d.count : ℚ)))⟩

def computeArmStats (ms : List (String × MetricStats)) :
    List (String × ArmStat) :=
  ms.filterMap
    (fun p => if 0 < p.2.count then some (p.1, mkArmStat p.2) else none)

/-- The comparison loop of model_manager.py:732-742: for every tracked
metric present in both arms' final statistics, build the comparison
entry. -/
def computeComparisons (tracked : List String)
    (aS bS : List (String × ArmStat)) : List (String × Comparison) :=
  tracked.filterMap
    (fun metric =>
      match alookup aS metric, alookup bS metric with
      | some a, some b =>
          some (metric,
            ⟨a.mean, b.mean, b.mean - a.mean, pctChange a.mean b.mean⟩)
      | _, _ => none)

/-- The winner rule of model_manager.py:744-751: only the first tracked
metric decides; its percent change must exceed `+5` (arm B) or fall below
`-5` (arm A), else no winner. -/
def decideWinner (tracked : List String)
    (comps : List (String × Comparison)) : Option Winner :=
  match tracked with
  | [] => none
  | primary :: _ =>
      match alookup comps primary with
      | none => none
      | some c =>
          if c.percent_change.gt 5 then some .version_b
          else if c.percent_change.lt (-5) then some .version_a
          else none

/-- The updated test record built by `end_test`
(model_manager.py:700-761): final per-arm statistics, comparisons, winner,
status flipped to completed. -/
def endedTest (t : ABTest) : ABTest :=
  let aS := computeArmStats t.results_a.metrics
  let bS := computeArmStats t.results_b.metrics
  let comps := computeComparisons t.metrics aS bS
  { t with
    status := .completed,
    final_metrics := some ⟨aS, bS, comps, decideWinner t.metrics comps⟩ }

/-- `ABTestManager.end_test` (model_manager.py:681-766): freeze the final
statistics, compute comparisons and the winner, mark completed.  `none`
in the first component stands for the error dictionaries (test missing or
not running). -/
def end_test (s : ABState) (test_id : String) : Option ABTest × ABState :=
  match alookup s.tests test_id with
  | none => (none, s)
  | some t =>
      if t.status ≠ .running then (none, s)
      else
        (some (endedTest t),
          { s with tests := insertA s.tests test_id (endedTest t) })

/-- The arm-to-version resolution of model_manager.py:871:
`version = test['version_a'] if winner == 'version_a' else
test['version_b']`. -/
def winnerVersion (t : ABTest) (w : Winner) : String :=
  if w = .version_a then t.version_a else t.version_b

/-- `ABTestManager.promote_winner` (model_manager.py:843-879): requires an
existing, completed test with a declared winner, then sets the winning
arm's version active via `set_active_version`. -/
def promote_winner (s : ABState) (test_id : String) : Bool × ABState :=
  match alookup s.tests test_id with
  | none => (false, s)
  | some t =>
      if t.status ≠ .completed then (false, s)
      else
        match t.final_metrics with
        | none => (false, s)
        | some fm =>
            match fm.winner with
            | none => (false, s)
            | some w =>
                let r := set_active_version s.mm t.model_type (winnerVersion t w)
                (r.1, { s with mm := r.2 })

/-- The running-statistics triple of the arm selected by `ver` for metric
`m` in test `test_id` (the observable of the batching-equivalence
property). -/
def armTriple (s : ABState) (test_id ver m : String) : Option MetricStats :=
  match alookup s.tests test_id with
  | none => none
  | some t =>
      if ver = t.version_a then alookup t.results_a.metrics m
      else if ver = t.version_b then alookup t.results_b.metrics m
      else none

/-! ### Association-list lemmas -/

theorem alookup_insertA_self {α : Type} (l : List (String × α)) (k : String)
    (v : α) : alookup (insertA l k v) k = some v := by
  induction l with
  | nil => simp [insertA, alookup]
  | cons p rest ih =>
      obtain ⟨a, b⟩ := p
      by_cases h : a = k
      · simp [insertA, alookup, h]
      · simp [insertA, alookup, h, ih]

theorem alookup_insertA_ne {α : Type} (l : List (String × α)) (k k' : String)
    (v : α) (h : k ≠ k') : alookup (insertA l k v) k' = alookup l k' := by
  induction l with
  | nil => simp [insertA, alookup, h]
  | cons p rest ih =>
      obtain ⟨a, b⟩ := p
      by_cases ha : a = k
      · subst ha
        simp [insertA, alookup, h]
      · by_cases hb : a = k'
        · subst hb
          simp [insertA, alookup, ha, Ne.symm h]
        · simp [insertA, alookup, ha, hb, ih]

theorem insertA_insertA_self {α : Type} (l : List (String × α)) (k : String)
    (v w : α) : insertA (insertA l k v) k w = insertA l k w := by
  induction l with
  | nil => simp [insertA]
  | cons p rest ih =>
      obtain ⟨a, b⟩ := p
      by_cases h : a = k
      · simp [insertA, h]
      · simp [insertA, h, ih]

theorem alookup_eq_none_of_not_mem {α : Type} (l : List (String × α))
    (k : String) (h : k ∉ akeys l) : alookup l k = none := by
  induction l with
  | nil => simp [alookup]
  | cons p rest ih =>
      obtain ⟨a, b⟩ := p
      simp [akeys] at h
      simp [alookup, Ne.symm h.1, ih (by simpa [akeys] using h.2)]

theorem insertA_of_not_mem {α : Type} (l : List (String × α)) (k : String)
    (v : α) (h : k ∉ akeys l) : insertA l k v = l ++ [(k, v)] := by
  induction l with
  | nil => simp [insertA]
  | cons p rest ih =>
      obtain ⟨a, b⟩ := p
      simp [akeys] at h
      simp [insertA, Ne.symm h.1, ih (by simpa [akeys] using h.2)]

theorem akeys_append {α : Type} (l l' : List (String × α)) :
    akeys (l ++ l') = akeys l ++ akeys l' := by
  simp [akeys]

/-! ### Batching equivalence of `update_test_metrics` -/

theorem bumpStats_succ (st : MetricStats) (v : ℚ) (k : Nat) :
    bumpStats (bumpStats st v k) v 1 = bumpStats st v (k + 1) := by
  simp only [bumpStats, MetricStats.mk.injEq]
  refine ⟨by push_cast; ring, by push_cast; ring, by omega⟩

theorem recordArm_single (r : ArmResults) (m : String) (v : ℚ) (n : Nat) :
    recordArm r [(m, v)] n =
      ⟨r.samples + n,
        insertA r.metrics m
          (bumpStats ((alookup r.metrics m).getD zeroStats) v n)⟩ := rfl

theorem recordArm_single_twice (r : ArmResults) (m : String) (v : ℚ)
    (k : Nat) :
    recordArm (recordArm r [(m, v)] k) [(m, v)] 1 =
      recordArm r [(m, v)] (k + 1) := by
  simp only [recordArm_single, alookup_insertA_self, Option.getD_some,
    insertA_insertA_self, bumpStats_succ, ArmResults.mk.injEq, and_true]
  omega

theorem update_spec_a (s : ABState) (test_id ver : String)
    (mvs : List (String × ℚ)) (n : Nat) (t : ABTest)
    (ht : alookup s.tests test_id = some t) (hr : t.status = .running)
    (hva : ver = t.version_a) :
    update_test_metrics s test_id ver mvs n =
      (true, { s with tests := insertA s.tests test_id (setArm t true (recordArm t.results_a mvs n)) }) := by
  simp [update_test_metrics, ht, hr, hva, armOf]

theorem update_spec_b (s : ABState) (test_id ver : String)
    (mvs : List (String × ℚ)) (n : Nat) (t : ABTest)
    (ht : alookup s.tests test_id = some t) (hr : t.status = .running)
    (hva : ¬ ver = t.version_a) (hvb : ver = t.version_b) :
    update_test_metrics s test_id ver mvs n =
      (true, { s with tests := insertA s.tests test_id (setArm t false (recordArm t.results_b mvs n)) }) := by
  subst hvb
  simp [update_test_metrics, ht, hr, hva, armOf]

theorem update_iterate (s : ABState) (test_id ver m : String) (v : ℚ)
    (n : Nat) (t : ABTest)
    (ht : alookup s.tests test_id = some t) (hr : t.status = .running)
    (harm : ver = t.version_a ∨ ver = t.version_b) :
    (update_test_metrics s test_id ver [(m, v)] (n + 1)).2 =
      (fun st => (update_test_metrics st test_id ver [(m, v)] 1).2)^[n + 1]
        s := by
  induction n with
  | zero =>
      simp [Function.iterate_one]
  | succ k ih =>
      rw [Function.iterate_succ_apply', ← ih]
      by_cases hva : ver = t.version_a
      · rw [update_spec_a s test_id ver [(m, v)] (k + 1) t ht hr hva]
        rw [update_spec_a _ test_id ver [(m, v)] 1
            (setArm t true (recordArm t.results_a [(m, v)] (k + 1)))
            (alookup_insertA_self _ _ _) (by simp [setArm, hr])
            (by simp [setArm, hva])]
        rw [update_spec_a s test_id ver [(m, v)] (k + 2) t ht hr hva]
        simp [setArm, insertA_insertA_self, recordArm_single_twice]
      · rcases harm with h | hvb
        · exact absurd h hva
        · rw [update_spec_b s test_id ver [(m, v)] (k + 1) t ht hr hva hvb]
          rw [update_spec_b _ test_id ver [(m, v)] 1
              (setArm t false (recordArm t.results_b [(m, v)] (k + 1)))
              (alookup_insertA_self _ _ _) (by simp [setArm, hr])
              (by simp [setArm, hva]) (by simp [setArm, hvb])]
          rw [update_spec_b s test_id ver [(m, v)] (k + 2) t ht hr hva hvb]
          simp [setArm, insertA_insertA_self, recordArm_single_twice]

/-! ### Concrete fixtures used by witnesses and counterexamples -/

/-- A running experiment between versions `va` and `vb` of model type
`sim`, tracking the single metric `accuracy`. -/
def wTest : ABTest :=
  { name := "exp", model_type := "sim", version_a := "va", version_b := "vb",
    traffic_split := 1/2, metrics := ["accuracy"], status := .running,
    results_a := ⟨0, []⟩, results_b := ⟨0, []⟩, final_metrics := none }

/-- Registered version `va` of model type `sim`. -/
def wVa : MVersion :=
  ⟨"va", 1, none, []⟩

/-- Registered version `vb` of model type `sim`. -/
def wVb : MVersion :=
  ⟨"vb", 2, none, []⟩

/-- A manager state holding `sim` versions `va`, `vb` with `va` active. -/
def wMM : MMState :=
  { model_versions := [("sim", [wVb, wVa])],
    active_versions := [("sim", wVa)] }

/-- Combined state with the running experiment `t1`. -/
def wState : ABState :=
  { mm := wMM, tests := [("t1", wTest)] }

/-- Claim C1: for every running experiment, arm, metric and value, one
batched `record` call with `sample_count = n > 0` produces the same state
— in particular the same `{count, sum, sum_of_squares}` triple for that
arm and metric — as `n` sequential `record` calls of the same value with
`sample_count = 1`. -/
theorem c1_batched_record_equiv (s : ABState) (test_id ver m : String)
    (v : ℚ) (n : Nat) (t : ABTest) (hn : 0 < n)
    (ht : alookup s.tests test_id = some t) (hr : t.status = .running)
    (harm : ver = t.version_a ∨ ver = t.version_b) :
    (update_test_metrics s test_id ver [(m, v)] n).2 =
      (fun st => (update_test_metrics st test_id ver [(m, v)] 1).2)^[n] s ∧
    armTriple ((update_test_metrics s test_id ver [(m, v)] n).2)
        test_id ver m =
      armTriple ((fun st => (update_test_metrics st test_id ver [(m, v)] 1).2)^[n] s)
        test_id ver m := by
  obtain ⟨k, rfl⟩ : ∃ k, n = k + 1 := ⟨n - 1, by omega⟩
  have h := update_iterate s test_id ver m v k t ht hr harm
  exact ⟨h, by rw [h]⟩

/-- Witness for C1 at a concrete running experiment, arm `va`, metric
`accuracy`, value `3/4`, `n = 3`. -/
theorem c1_batched_record_equiv_witness :
    (update_test_metrics wState "t1" "va" [("accuracy", 3/4)] 3).2 =
      (fun st => (update_test_metrics st "t1" "va" [("accuracy", 3/4)] 1).2)^[3]
        wState ∧
    armTriple ((update_test_metrics wState "t1" "va" [("accuracy", 3/4)] 3).2)
        "t1" "va" "accuracy" =
      armTriple ((fun st => (update_test_metrics st "t1" "va" [("accuracy", 3/4)] 1).2)^[3]
          wState)
        "t1" "va" "accuracy" :=
  c1_batched_record_equiv wState "t1" "va" "accuracy" (3/4) 3 wTest
    (by decide) rfl rfl (Or.inl rfl)

/-! ### Characterization lemmas for end_test -/

theorem akeys_computeArmStats_subset (ms : List (String × MetricStats)) :
    akeys (computeArmStats ms) ⊆ akeys ms := by
  intro x hx
  simp only [akeys, computeArmStats, List.mem_map, List.mem_filterMap] at hx
  obtain ⟨q, ⟨p, hp, hfp⟩, hfst⟩ := hx
  by_cases hc : 0 < p.2.count
  · simp [hc] at hfp
    subst hfp
    simp only [akeys, List.mem_map]
    exact ⟨p, hp, hfst⟩
  · simp [hc] at hfp
theorem alookup_computeArmStats (ms : List (String × MetricStats))
    (hnd : (akeys ms).Nodup) (q : String) :
    alookup (computeArmStats ms) q =
      (alookup ms q).bind
        (fun d => if 0 < d.count then some (mkArmStat d) else none) := by
  induction ms with
  | nil => simp [computeArmStats, alookup]
  | cons p rest ih =>
      obtain ⟨k, d⟩ := p
      simp only [akeys, List.map_cons, List.nodup_cons] at hnd
      by_cases hc : 0 < d.count
      · have hstep : computeArmStats ((k, d) :: rest) =
            (k, mkArmStat d) :: computeArmStats rest := by
          simp [computeArmStats, hc]
        by_cases hq : k = q
        · subst hq
          simp [hstep, alookup, hc]
        · simp [hstep, alookup, hq, ih hnd.2]
      · have hstep : computeArmStats ((k, d) :: rest) =
            computeArmStats rest := by
          simp [computeArmStats, hc]
        by_cases hq : k = q
        · subst hq
          have h2 : alookup (computeArmStats rest) k = none := by
            apply alookup_eq_none_of_not_mem
            intro hmem
            exact hnd.1 (akeys_computeArmStats_subset rest hmem)
          simp [hstep, alookup, hc, h2]
        · simp [hstep, alookup, hq, ih hnd.2]

theorem computeComparisons_cons_of_both (p : String) (rest : List String)
    (aS bS : List (String × ArmStat)) (a b : ArmStat)
    (ha : alookup aS p = some a) (hb : alookup bS p = some b) :
    computeComparisons (p :: rest) aS bS =
      (p, ⟨a.mean, b.mean, b.mean - a.mean, pctChange a.mean b.mean⟩) ::
        computeComparisons rest aS bS := by
  simp [computeComparisons, ha, hb]

theorem akeys_computeComparisons_subset (tracked : List String)
    (aS bS : List (String × ArmStat)) :
    akeys (computeComparisons tracked aS bS) ⊆ tracked := by
  intro x hx
  simp only [akeys, computeComparisons, List.mem_map, List.mem_filterMap] at hx
  obtain ⟨q, ⟨m, hm, hfm⟩, hfst⟩ := hx
  cases h1 : alookup aS m with
  | none => simp [h1] at hfm
  | some a =>
      cases h2 : alookup bS m with
      | none => simp [h1, h2] at hfm
      | some b =>
          simp only [h1, h2, Option.some.injEq] at hfm
          rw [← hfst, ← hfm]
          exact hm

theorem end_test_spec (s : ABState) (test_id : String) (t : ABTest)
    (ht : alookup s.tests test_id = some t) (hr : t.status = .running) :
    end_test s test_id =
      (some (endedTest t),
        { s with tests := insertA s.tests test_id (endedTest t) }) := by
  simp [end_test, ht, hr]

theorem endedTest_final (p : String) (t : ABTest)
    (rest : List String) (da db : MetricStats)
    (hm : t.metrics = p :: rest)
    (hda : alookup t.results_a.metrics p = some da) (hca : 0 < da.count)
    (hdb : alookup t.results_b.metrics p = some db) (hcb : 0 < db.count)
    (hnda : (akeys t.results_a.metrics).Nodup)
    (hndb : (akeys t.results_b.metrics).Nodup) :
    (endedTest t).final_metrics =
      some ⟨computeArmStats t.results_a.metrics,
        computeArmStats t.results_b.metrics,
        computeComparisons t.metrics (computeArmStats t.results_a.metrics)
          (computeArmStats t.results_b.metrics),
        if (pctChange (mkArmStat da).mean (mkArmStat db).mean).gt 5 then
          some Winner.version_b
        else if (pctChange (mkArmStat da).mean (mkArmStat db).mean).lt (-5) then
          some Winner.version_a
        else none⟩ := by
  have ha : alookup (computeArmStats t.results_a.metrics) p =
      some (mkArmStat da) := by
    rw [alookup_computeArmStats _ hnda, hda]
    simp [hca]
  have hb : alookup (computeArmStats t.results_b.metrics) p =
      some (mkArmStat db) := by
    rw [alookup_computeArmStats _ hndb, hdb]
    simp [hcb]
  have hcomps := computeComparisons_cons_of_both p rest
    (computeArmStats t.results_a.metrics) (computeArmStats t.results_b.metrics)
    (mkArmStat da) (mkArmStat db) ha hb
  have hwin : decideWinner t.metrics
      (computeComparisons t.metrics (computeArmStats t.results_a.metrics)
        (computeArmStats t.results_b.metrics)) =
      (if (pctChange (mkArmStat da).mean (mkArmStat db).mean).gt 5 then
        some Winner.version_b
      else if (pctChange (mkArmStat da).mean (mkArmStat db).mean).lt (-5) then
        some Winner.version_a
      else none) := by
    rw [hm, hcomps]
    simp [decideWinner, alookup]
  simp [endedTest, hwin]

/-- The percent change of the primary metric, computed from the two arms'
raw running triples exactly as `end_test` does
(mean `= sum / count`, then the shared percent-change expression). -/
def primaryPct (da db : MetricStats) : Pct :=
  pctChange (da.sum / (da.count : ℚ)) (db.sum / (db.count : ℚ))

/-- Claim C2: ending an experiment whose first tracked metric has nonzero
count in both arms declares arm B the winner exactly when that primary
metric's percent change exceeds `+5`, arm A exactly when it is below
`-5`, and no winner otherwise; the winner is a function of the primary
metric's two triples alone, so metrics after the first never influence
it. -/
theorem c2_winner_rule (s : ABState) (test_id : String) (t : ABTest)
    (p : String) (rest : List String) (da db : MetricStats)
    (ht : alookup s.tests test_id = some t) (hr : t.status = .running)
    (hm : t.metrics = p :: rest)
    (hda : alookup t.results_a.metrics p = some da) (hca : 0 < da.count)
    (hdb : alookup t.results_b.metrics p = some db) (hcb : 0 < db.count)
    (hnda : (akeys t.results_a.metrics).Nodup)
    (hndb : (akeys t.results_b.metrics).Nodup) :
    (((end_test s test_id).1.bind ABTest.final_metrics).map FinalMetrics.winner
        = some (some Winner.version_b) ↔ (primaryPct da db).gt 5 = true) ∧
    (((end_test s test_id).1.bind ABTest.final_metrics).map FinalMetrics.winner
        = some (some Winner.version_a) ↔
      ((primaryPct da db).gt 5 = false ∧ (primaryPct da db).lt (-5) = true)) ∧
    (((end_test s test_id).1.bind ABTest.final_metrics).map FinalMetrics.winner
        = some none ↔
      ((primaryPct da db).gt 5 = false ∧
        (primaryPct da db).lt (-5) = false)) := by
  have hfin := endedTest_final p t rest da db hm hda hca hdb hcb hnda hndb
  have hkey : ((end_test s test_id).1.bind ABTest.final_metrics).map
      FinalMetrics.winner =
      some (if (primaryPct da db).gt 5 = true then some Winner.version_b
        else if (primaryPct da db).lt (-5) = true then some Winner.version_a
        else none) := by
    rw [end_test_spec s test_id t ht hr]
    simp [hfin, primaryPct, mkArmStat]
  cases hgt : (primaryPct da db).gt 5 <;>
    cases hlt : (primaryPct da db).lt (-5) <;>
      simp [hkey, hgt, hlt]

/-- A running experiment with Scenario B statistics: primary metric
`accuracy`, arm A mean `0.70` and arm B mean `0.78` over 100 samples
each. -/
def wRecTest : ABTest :=
  { wTest with
    results_a := ⟨100, [("accuracy", ⟨70, 49, 100⟩)]⟩,
    results_b := ⟨100, [("accuracy", ⟨78, 61, 100⟩)]⟩ }

/-- State holding the Scenario B experiment under id `t2`. -/
def wRecState : ABState :=
  { mm := wMM, tests := [("t2", wRecTest)] }

/-- Witness for C2 at the Scenario B experiment (means `0.70` vs `0.78`,
percent change `+80/7 ≈ +11.43`). -/
theorem c2_winner_rule_witness :
    (((end_test wRecState "t2").1.bind ABTest.final_metrics).map
        FinalMetrics.winner = some (some Winner.version_b) ↔
      (primaryPct ⟨70, 49, 100⟩ ⟨78, 61, 100⟩).gt 5 = true) ∧
    (((end_test wRecState "t2").1.bind ABTest.final_metrics).map
        FinalMetrics.winner = some (some Winner.version_a) ↔
      ((primaryPct ⟨70, 49, 100⟩ ⟨78, 61, 100⟩).gt 5 = false ∧
        (primaryPct ⟨70, 49, 100⟩ ⟨78, 61, 100⟩).lt (-5) = true)) ∧
    (((end_test wRecState "t2").1.bind ABTest.final_metrics).map
        FinalMetrics.winner = some none ↔
      ((primaryPct ⟨70, 49, 100⟩ ⟨78, 61, 100⟩).gt 5 = false ∧
        (primaryPct ⟨70, 49, 100⟩ ⟨78, 61, 100⟩).lt (-5) = false)) :=
  c2_winner_rule wRecState "t2" wRecTest "accuracy" [] ⟨70, 49, 100⟩
    ⟨78, 61, 100⟩ rfl rfl rfl rfl (by decide) rfl (by decide)
    (by decide) (by decide)

/-- Claim C6: on a completed experiment both `record` and `end` fail and
leave the whole state — in particular `final_result` and the frozen
statistics — unchanged. -/
theorem c6_terminal_immutability (s : ABState) (test_id ver : String)
    (mvs : List (String × ℚ)) (n : Nat) (t : ABTest)
    (ht : alookup s.tests test_id = some t)
    (hc : t.status = .completed) :
    update_test_metrics s test_id ver mvs n = (false, s) ∧
    end_test s test_id = (none, s) := by
  constructor
  · simp [update_test_metrics, ht, hc]
  · simp [end_test, ht, hc]

/-- The Scenario B experiment after completion, winner arm B. -/
def wDoneTest : ABTest :=
  { wTest with
    status := .completed,
    final_metrics := some ⟨[], [], [], some Winner.version_b⟩ }

/-- State holding the completed experiment under id `t3`. -/
def wDoneState : ABState :=
  { mm := wMM, tests := [("t3", wDoneTest)] }

/-- Witness for C6 at a concrete completed experiment. -/
theorem c6_terminal_immutability_witness :
    update_test_metrics wDoneState "t3" "va" [("accuracy", 1)] 1 =
      (false, wDoneState) ∧
    end_test wDoneState "t3" = (none, wDoneState) :=
  c6_terminal_immutability wDoneState "t3" "va" [("accuracy", 1)] 1
    wDoneTest rfl rfl

/-- Claim C5: deleting the currently resolved active version of a model
type always fails and leaves the version store (indeed the whole manager
state) unchanged, so the version stays registered. -/
theorem c5_delete_active_protected (s : MMState) (mt ver : String)
    (av : MVersion) (ha : get_active_version s mt = some av)
    (hv : av.version = ver) :
    delete_version s mt ver = (false, s) := by
  have ha' : alookup s.active_versions mt = some av := ha
  cases hmv : alookup s.model_versions mt with
  | none => simp [delete_version, hmv]
  | some vs =>
      cases hidx : vs.findIdx? (fun v => decide (v.version = ver)) with
      | none => simp [delete_version, hmv, hidx]
      | some i => simp [delete_version, hmv, hidx, ha', hv]

/-- Witness for C5: deleting the active version `va` of `sim` fails. -/
theorem c5_delete_active_protected_witness :
    delete_version wMM "sim" "va" = (false, wMM) :=
  c5_delete_active_protected wMM "sim" "va" wVa rfl rfl

/-- Claim C4: `promote_winner` fails on a missing experiment, on a
non-completed experiment, and on a completed experiment without a
declared winner — each time leaving the state (hence the active version)
unchanged; on a completed experiment whose winner's version is registered
it sets the model type's active version to the winning arm's version
object, and promoting again re-applies the same pointer (idempotent). -/
theorem c4_promote_winner (s : ABState) (test_id : String) :
    (alookup s.tests test_id = none → promote_winner s test_id = (false, s)) ∧
    (∀ t, alookup s.tests test_id = some t → t.status ≠ .completed →
      promote_winner s test_id = (false, s)) ∧
    (∀ t, alookup s.tests test_id = some t → t.status = .completed →
      t.final_metrics.bind FinalMetrics.winner = none →
      promote_winner s test_id = (false, s)) ∧
    (∀ t fm w vs v, alookup s.tests test_id = some t →
      t.status = .completed → t.final_metrics = some fm →
      fm.winner = some w →
      alookup s.mm.model_versions t.model_type = some vs →
      vs.find? (fun x => decide (x.version = winnerVersion t w)) = some v →
      (promote_winner s test_id).1 = true ∧
      get_active_version (promote_winner s test_id).2.mm t.model_type =
        some v ∧
      v.version = winnerVersion t w ∧
      promote_winner (promote_winner s test_id).2 test_id =
        (true, (promote_winner s test_id).2)) := by
  refine ⟨?_, ?_, ?_, ?_⟩
  · intro h
    simp [promote_winner, h]
  · intro t ht hnc
    simp [promote_winner, ht, hnc]
  · intro t ht hc hw
    cases hfm : t.final_metrics with
    | none => simp [promote_winner, ht, hc, hfm]
    | some fm =>
        have hw' : fm.winner = none := by simpa [hfm] using hw
        simp [promote_winner, ht, hc, hfm, hw']
  · intro t fm w vs v ht hc hfm hw hvs hfind
    have hp := List.find?_some hfind
    have hver : v.version = winnerVersion t w := by simpa using hp
    have hpromote : promote_winner s test_id =
        (true, { s with mm := { s.mm with
          active_versions := insertA s.mm.active_versions t.model_type v } }) := by
      simp [promote_winner, ht, hc, hfm, hw, set_active_version, hvs, hfind]
    refine ⟨by rw [hpromote], ?_, hver, ?_⟩
    · simp [hpromote, get_active_version, alookup_insertA_self]
    · rw [hpromote]
      simp [promote_winner, ht, hc, hfm, hw, set_active_version, hvs, hfind,
        insertA_insertA_self]

/-- Witness for C4: promoting the completed experiment `t3` (winner arm
B) sets `sim`'s active version to `vb`, and promoting again re-applies
the same pointer. -/
theorem c4_promote_winner_witness :
    (promote_winner wDoneState "t3").1 = true ∧
    get_active_version (promote_winner wDoneState "t3").2.mm "sim" =
      some wVb ∧
    wVb.version = winnerVersion wDoneTest Winner.version_b ∧
    promote_winner (promote_winner wDoneState "t3").2 "t3" =
      (true, (promote_winner wDoneState "t3").2) :=
  (c4_promote_winner wDoneState "t3").2.2.2 wDoneTest
    ⟨[], [], [], some Winner.version_b⟩ Winner.version_b [wVb, wVa] wVb
    rfl rfl rfl rfl rfl rfl

/-! ### Default active-version resolution (C7) -/

theorem length_insertDesc (v : MVersion) (l : List MVersion) :
    (insertDesc v l).length = l.length + 1 := by
  induction l with
  | nil => simp [insertDesc]
  | cons w ws ih =>
      by_cases h : w.created_at ≤ v.created_at <;> simp [insertDesc, h, ih]

theorem length_sortDesc (l : List MVersion) :
    (sortDesc l).length = l.length := by
  induction l with
  | nil => simp [sortDesc]
  | cons v vs ih => simp [sortDesc, length_insertDesc, ih]

theorem sortDesc_eq_nil (l : List MVersion) (h : sortDesc l = []) :
    l = [] := by
  have := length_sortDesc l
  rw [h] at this
  exact List.length_eq_zero.mp this.symm

theorem head_sortDesc (l : List MVersion) :
    (sortDesc l).head? = firstArgMax l := by
  induction l with
  | nil => simp [sortDesc, firstArgMax]
  | cons v vs ih =>
      cases hs : sortDesc vs with
      | nil =>
          have hv : vs = [] := sortDesc_eq_nil vs hs
          subst hv
          simp [sortDesc, insertDesc, firstArgMax]
      | cons w ws =>
          have hw : firstArgMax vs = some w := by
            rw [← ih, hs]
            rfl
          by_cases h : w.created_at ≤ v.created_at
          · have hlt : ¬ v.created_at < w.created_at := not_lt.mpr h
            simp [sortDesc, hs, insertDesc, h, firstArgMax, hw, hlt]
          · have hlt : v.created_at < w.created_at := not_le.mp h
            simp [sortDesc, hs, insertDesc, h, firstArgMax, hw, hlt]

theorem firstArgMax_eq_none (l : List MVersion)
    (h : firstArgMax l = none) : l = [] := by
  cases l with
  | nil => rfl
  | cons x xs =>
      exfalso
      rw [firstArgMax] at h
      cases hx : firstArgMax xs with
      | none => rw [hx] at h; simp at h
      | some w =>
          rw [hx] at h
          by_cases hlt : x.created_at < w.created_at <;> simp [hlt] at h

theorem firstArgMax_mem (l : List MVersion) (v : MVersion)
    (h : firstArgMax l = some v) : v ∈ l := by
  induction l with
  | nil => simp [firstArgMax] at h
  | cons x xs ih =>
      rw [firstArgMax] at h
      cases hx : firstArgMax xs with
      | none =>
          rw [hx] at h
          simp at h
          simp [h]
      | some w =>
          rw [hx] at h
          by_cases hlt : x.created_at < w.created_at
          · simp [hlt] at h
            subst h
            exact List.mem_cons_of_mem x (ih hx)
          · simp [hlt] at h
            simp [h]

theorem firstArgMax_max (l : List MVersion) (v : MVersion)
    (h : firstArgMax l = some v) :
    ∀ w ∈ l, w.created_at ≤ v.created_at := by
  induction l generalizing v with
  | nil => simp [firstArgMax] at h
  | cons x xs ih =>
      rw [firstArgMax] at h
      cases hx : firstArgMax xs with
      | none =>
          have hnil : xs = [] := firstArgMax_eq_none xs hx
          subst hnil
          rw [hx] at h
          simp at h
          subst h
          simp
      | some w =>
          rw [hx] at h
          by_cases hlt : x.created_at < w.created_at
          · simp [hlt] at h
            subst h
            intro u hu
            rcases List.mem_cons.mp hu with hu | hu
            · subst hu; exact le_of_lt hlt
            · exact ih w hx u hu
          · simp [hlt] at h
            subst h
            intro u hu
            rcases List.mem_cons.mp hu with hu | hu
            · subst hu
              exact le_rfl
            · exact le_trans (ih w hx u hu) (not_lt.mp hlt)

theorem firstArgMax_first (l : List MVersion) (v : MVersion)
    (h : firstArgMax l = some v) :
    ∃ l1 l2, l = l1 ++ v :: l2 ∧
      ∀ w ∈ l1, w.created_at < v.created_at := by
  induction l generalizing v with
  | nil => simp [firstArgMax] at h
  | cons x xs ih =>
      rw [firstArgMax] at h
      cases hx : firstArgMax xs with
      | none =>
          rw [hx] at h
          simp at h
          subst h
          exact ⟨[], xs, rfl, by simp⟩
      | some w =>
          rw [hx] at h
          by_cases hlt : x.created_at < w.created_at
          · simp [hlt] at h
            subst h
            obtain ⟨l1, l2, heq, hall⟩ := ih w hx
            refine ⟨x :: l1, l2, by simp [heq], ?_⟩
            intro u hu
            rcases List.mem_cons.mp hu with hu | hu
            · subst hu; exact hlt
            · exact hall u hu
          · simp [hlt] at h
            subst h
            exact ⟨[], xs, rfl, by simp⟩

theorem alookup_resolveStep_ne (mv : List (String × List MVersion))
    (acc : List (String × MVersion)) (p : String × String) (mt : String)
    (h : p.1 ≠ mt) :
    alookup (resolveStep mv acc p) mt = alookup acc mt := by
  cases hf : ((alookup mv p.1).getD []).find?
      (fun v => decide (v.version = p.2)) with
  | none => simp [resolveStep, hf]
  | some v => simp [resolveStep, hf, alookup_insertA_ne _ _ _ _ h]

theorem alookup_resolveFold_none (mv : List (String × List MVersion))
    (fd : List (String × String)) (acc : List (String × MVersion))
    (mt : String) (hfd : mt ∉ fd.map Prod.fst)
    (hacc : alookup acc mt = none) :
    alookup (fd.foldl (resolveStep mv) acc) mt = none := by
  induction fd generalizing acc with
  | nil => simpa using hacc
  | cons p rest ih =>
      simp only [List.map_cons, List.mem_cons, not_or] at hfd
      rw [List.foldl_cons]
      refine ih _ hfd.2 ?_
      rw [alookup_resolveStep_ne mv acc p mt (fun hp => hfd.1 hp.symm)]
      exact hacc

theorem alookup_defaultStep_ne (acc : List (String × MVersion))
    (p : String × List MVersion) (mt : String) (h : p.1 ≠ mt) :
    alookup (defaultStep acc p) mt = alookup acc mt := by
  by_cases hs : (alookup acc p.1).isSome
  · simp [defaultStep, hs]
  · cases hvs : p.2 with
    | nil => simp [defaultStep, hs, hvs]
    | cons v vrest =>
        simp [defaultStep, hs, hvs, alookup_insertA_ne _ _ _ _ h]

theorem alookup_defaultFold_preserve (l : List (String × List MVersion))
    (acc : List (String × MVersion)) (mt : String)
    (h : mt ∉ l.map Prod.fst) :
    alookup (l.foldl defaultStep acc) mt = alookup acc mt := by
  induction l generalizing acc with
  | nil => simp
  | cons p rest ih =>
      simp only [List.map_cons, List.mem_cons, not_or] at h
      rw [List.foldl_cons, ih _ h.2]
      exact alookup_defaultStep_ne acc p mt (fun hp => h.1 hp.symm)

theorem alookup_defaultFold (l : List (String × List MVersion))
    (acc : List (String × MVersion)) (mt : String)
    (hnd : (l.map Prod.fst).Nodup) (hacc : alookup acc mt = none) :
    alookup (l.foldl defaultStep acc) mt =
      ((alookup l mt).getD []).head? := by
  induction l generalizing acc with
  | nil => simpa [alookup] using hacc
  | cons p rest ih =>
      obtain ⟨k, vs⟩ := p
      simp only [List.map_cons, List.nodup_cons] at hnd
      by_cases hk : k = mt
      · subst hk
        have hns : ¬ (alookup acc k).isSome := by simp [hacc]
        cases vs with
        | nil =>
            have hstep : defaultStep acc (k, []) = acc := by
              simp [defaultStep, hns]
            rw [List.foldl_cons, hstep,
              alookup_defaultFold_preserve rest acc k hnd.1, hacc]
            simp [alookup]
        | cons v vrest =>
            have hstep : defaultStep acc (k, v :: vrest) = insertA acc k v := by
              simp [defaultStep, hns]
            rw [List.foldl_cons, hstep,
              alookup_defaultFold_preserve rest _ k hnd.1,
              alookup_insertA_self]
            simp [alookup]
      · rw [List.foldl_cons]
        rw [ih _ hnd.2 (by
          rw [alookup_defaultStep_ne acc (k, vs) mt hk]
          exact hacc)]
        simp [alookup, hk]

theorem alookup_determine_active (mv : List (String × List MVersion))
    (fd : List (String × String)) (mt : String)
    (hnd : (mv.map Prod.fst).Nodup) (hfd : mt ∉ fd.map Prod.fst) :
    alookup (determine_active_versions mv fd) mt =
      ((alookup mv mt).getD []).head? := by
  unfold determine_active_versions resolveFromFile
  exact alookup_defaultFold mv _ mt hnd
    (alookup_resolveFold_none mv fd [] mt hfd rfl)

theorem alookup_map_sortDesc (dirs : List (String × List MVersion))
    (mt : String) :
    alookup (dirs.map (fun p => (p.1, sortDesc p.2))) mt =
      (alookup dirs mt).map sortDesc := by
  induction dirs with
  | nil => simp [alookup]
  | cons p rest ih =>
      obtain ⟨k, vs⟩ := p
      by_cases hk : k = mt <;> simp [alookup, hk, ih]

/-- Claim C7: with no explicit active pointer for a model type, the
loaded manager resolves the active version to the first registered
version attaining the maximal `created_at` (newest, ties broken in favor
of earlier registration), and to `none` when the type has no versions;
in particular registering `v1` then a strictly later `v2` resolves to
`v2`. -/
theorem c7_default_active (dirs : List (String × List MVersion))
    (fd : List (String × String)) (mt : String)
    (hnd : (dirs.map Prod.fst).Nodup) (hfd : mt ∉ fd.map Prod.fst) :
    get_active_version (loadState dirs fd) mt =
      firstArgMax ((alookup dirs mt).getD []) ∧
    (∀ regs v, firstArgMax regs = some v → v ∈ regs ∧
      (∀ w ∈ regs, w.created_at ≤ v.created_at) ∧
      ∃ l1 l2, regs = l1 ++ v :: l2 ∧
        ∀ w ∈ l1, w.created_at < v.created_at) ∧
    firstArgMax ([] : List MVersion) = none ∧
    (∀ a b : MVersion, a.created_at < b.created_at →
      firstArgMax [a, b] = some b) := by
  refine ⟨?_, ?_, rfl, ?_⟩
  · have hnd' : ((dirs.map (fun p => (p.1, sortDesc p.2))).map
        Prod.fst).Nodup := by
      simpa [Function.comp] using hnd
    show alookup (determine_active_versions
      (dirs.map (fun p => (p.1, sortDesc p.2))) fd) mt = _
    rw [alookup_determine_active _ fd mt hnd' hfd, alookup_map_sortDesc]
    cases h : alookup dirs mt with
    | none => simp [firstArgMax]
    | some regs => simp [head_sortDesc]
  · intro regs v h
    exact ⟨firstArgMax_mem regs v h, firstArgMax_max regs v h,
      firstArgMax_first regs v h⟩
  · intro a b hab
    simp [firstArgMax, hab, not_lt.mpr (le_of_lt hab)]

/-- Witness for C7: versions `va` (tick 1) then `vb` (tick 2) of `sim`,
no marker file — the resolved active version is `vb`. -/
theorem c7_default_active_witness :
    get_active_version (loadState [("sim", [wVa, wVb])] []) "sim" =
      firstArgMax ((alookup [("sim", [wVa, wVb])] "sim").getD []) ∧
    firstArgMax [wVa, wVb] = some wVb :=
  ⟨(c7_default_active [("sim", [wVa, wVb])] [] "sim" (by decide)
      (by decide)).1,
    by decide⟩

/-! ### compare_versions: fixed metric set and the infinity value (C9, C3) -/

/-- Version `u1` of `sim`, reporting only the metric `precision`. -/
def wU1 : MVersion :=
  ⟨"u1", 1, none, [("precision", 1)]⟩

/-- Version `u2` of `sim`, reporting only the metric `precision`. -/
def wU2 : MVersion :=
  ⟨"u2", 2, none, [("precision", 2)]⟩

/-- A manager state whose two `sim` versions share only `precision`. -/
def wPrecMM : MMState :=
  { model_versions := [("sim", [wU2, wU1])], active_versions := [] }

/-- Counterexample to C9 as stated: the metric `precision` is present in
both versions' metrics mappings yet receives no comparison entry, while
`accuracy` is present in neither mapping yet does receive one. -/
theorem c9_compare_metrics_counterexample :
    ((compare_versions wPrecMM "sim" "u1" "u2").map
        (fun d => alookup d "precision")) = some none ∧
    ((compare_versions wPrecMM "sim" "u1" "u2").map
        (fun d => (alookup d "accuracy").isSome)) = some true := by
  constructor <;> rfl

/-- Claim C9 as amended: `compare_versions` always returns entries for
exactly the two hard-coded metrics `accuracy` and `f1_score` (in that
order), regardless of which metrics the two versions report; each entry
is built from `get_accuracy` / `get_f1_score`, which default a missing
metric to `0.0`. -/
theorem c9_compare_fixed_metrics (s : MMState) (mt v1 v2 : String)
    (vs : List MVersion) (a b : MVersion)
    (hvs : alookup s.model_versions mt = some vs)
    (hscan : scanPair vs v1 v2 = (some a, some b)) :
    compare_versions s mt v1 v2 =
      some [("accuracy", mkDiff (get_accuracy a) (get_accuracy b)),
            ("f1_score", mkDiff (get_f1_score a) (get_f1_score b))] ∧
    ∀ d, compare_versions s mt v1 v2 = some d →
      akeys d = ["accuracy", "f1_score"] := by
  have h1 : compare_versions s mt v1 v2 =
      some [("accuracy", mkDiff (get_accuracy a) (get_accuracy b)),
            ("f1_score", mkDiff (get_f1_score a) (get_f1_score b))] := by
    simp [compare_versions, hvs, hscan]
  refine ⟨h1, ?_⟩
  intro d hd
  rw [h1] at hd
  simp only [Option.some.injEq] at hd
  subst hd
  rfl

/-- Witness for the amended C9 at the `precision`-only versions. -/
theorem c9_compare_fixed_metrics_witness :
    compare_versions wPrecMM "sim" "u1" "u2" =
      some [("accuracy", mkDiff (get_accuracy wU1) (get_accuracy wU2)),
            ("f1_score", mkDiff (get_f1_score wU1) (get_f1_score wU2))] ∧
    ∀ d, compare_versions wPrecMM "sim" "u1" "u2" = some d →
      akeys d = ["accuracy", "f1_score"] :=
  c9_compare_fixed_metrics wPrecMM "sim" "u1" "u2" [wU2, wU1] wU1 wU2
    rfl rfl

/-- Counterexample to C3 as stated: comparing the `precision`-only
versions puts baseline accuracy `0` in `value1`, and the reported
`percent_change` is the literal infinite float (`Pct.inf`, the embedding
of Python's `float('inf')`), not a non-numeric undefined sentinel. -/
theorem c3_pct_sentinel_counterexample :
    ((compare_versions wPrecMM "sim" "u1" "u2").map
        (fun d => (alookup d "accuracy").map
          (fun e => (e.value1, e.percent_change.isInf)))) =
      some (some (0, true)) := by
  rfl

/-- Claim C3 as amended: whenever the baseline value (`value1` in
`compare_versions`, `mean_a` in `end_test`) is `0` — indeed whenever it
is `≤ 0`, since the code tests `> 0` — the reported `pct_change` is the
literal infinite float `float('inf')` (`Pct.inf`); no undefined sentinel
exists in the code. -/
theorem c3_pct_inf_amended :
    (∀ (s : MMState) (mt v1 v2 : String) (vs : List MVersion)
      (a b : MVersion), alookup s.model_versions mt = some vs →
      scanPair vs v1 v2 = (some a, some b) → get_accuracy a ≤ 0 →
      ((compare_versions s mt v1 v2).bind
          (fun d => alookup d "accuracy")).map MetricDiff.percent_change =
        some Pct.inf) ∧
    (∀ (s : ABState) (test_id : String) (t : ABTest) (p : String)
      (rest : List String) (da db : MetricStats),
      alookup s.tests test_id = some t → t.status = .running →
      t.metrics = p :: rest →
      alookup t.results_a.metrics p = some da → 0 < da.count →
      alookup t.results_b.metrics p = some db → 0 < db.count →
      (akeys t.results_a.metrics).Nodup →
      (akeys t.results_b.metrics).Nodup →
      da.sum / (da.count : ℚ) ≤ 0 →
      ((end_test s test_id).1.bind ABTest.final_metrics).map
          (fun fm => (alookup fm.comparisons p).map
            Comparison.percent_change) =
        some (some Pct.inf)) := by
  constructor
  · intro s mt v1 v2 vs a b hvs hscan hz
    simp [compare_versions, hvs, hscan, alookup, mkDiff, pctChange,
      not_lt.mpr hz]
  · intro s test_id t p rest da db ht hr hm hda hca hdb hcb hnda hndb hz
    rw [end_test_spec s test_id t ht hr]
    have ha : alookup (computeArmStats t.results_a.metrics) p =
        some (mkArmStat da) := by
      rw [alookup_computeArmStats _ hnda, hda]
      simp [hca]
    have hb : alookup (computeArmStats t.results_b.metrics) p =
        some (mkArmStat db) := by
      rw [alookup_computeArmStats _ hndb, hdb]
      simp [hcb]
    have hcomps := computeComparisons_cons_of_both p rest
      (computeArmStats t.results_a.metrics)
      (computeArmStats t.results_b.metrics)
      (mkArmStat da) (mkArmStat db) ha hb
    have hmean : (mkArmStat da).mean = da.sum / (da.count : ℚ) := rfl
    simp only [endedTest, hm, hcomps]
    simp [alookup, pctChange, hmean, not_lt.mpr hz]

/-- Witness for the amended C3: baseline accuracy `0` yields `Pct.inf`
from `compare_versions`. -/
theorem c3_pct_inf_amended_witness :
    ((compare_versions wPrecMM "sim" "u1" "u2").bind
        (fun d => alookup d "accuracy")).map MetricDiff.percent_change =
      some Pct.inf :=
  c3_pct_inf_amended.1 wPrecMM "sim" "u1" "u2" [wU2, wU1] wU1 wU2 rfl rfl
    (by decide)

/-! ### create_test performs no split or metrics validation (C8) -/

/-- Counterexample to C8 as stated: creating an experiment with
`traffic_split = 2` (outside `[0, 1]`) and an empty tracked-metrics list
succeeds instead of failing with a validation error; moreover the created
experiment carries the default metric list and empty per-arm statistics
dictionaries rather than per-metric zeroed triples. -/
theorem c8_create_validation_counterexample :
    ((create_test wState "t9" "exp2" "sim" "va" "vb" 2 []).1).isSome =
      true ∧
    ((create_test wState "t9" "exp2" "sim" "va" "vb" 2 []).1.map
        (fun t => (t.status, t.metrics, t.results_a.metrics,
          t.results_b.metrics))) =
      some (TestStatus.running, ["accuracy", "f1_score"], [], []) := by
  constructor <;> rfl

/-- Claim C8 as amended: `create_test` validates only the existence of the
model type and of both versions; it accepts every `traffic_split`
(including values outside `[0, 1]`), replaces a falsy (empty) metrics
list by the default `['accuracy', 'f1_score']`, and the created
experiment starts running with zero samples and empty per-arm statistics
dictionaries that are filled lazily by `record`. -/
theorem c8_create_no_validation (s : ABState)
    (test_id name mt va vb : String) (split : ℚ) (ms : List String)
    (vs : List MVersion)
    (hvs : alookup s.mm.model_versions mt = some vs)
    (hf : scanFound vs va vb = (true, true)) :
    create_test s test_id name mt va vb split ms =
      (some (newTest name mt va vb split
          (if ms.isEmpty then ["accuracy", "f1_score"] else ms)),
        { s with tests := insertA s.tests test_id
                            (newTest name mt va vb split
                              (if ms.isEmpty then ["accuracy", "f1_score"]
                                else ms)) }) ∧
    (newTest name mt va vb split
        (if ms.isEmpty then ["accuracy", "f1_score"] else ms)).status =
      .running ∧
    (newTest name mt va vb split
        (if ms.isEmpty then ["accuracy", "f1_score"] else ms)).results_a =
      ⟨0, []⟩ ∧
    (newTest name mt va vb split
        (if ms.isEmpty then ["accuracy", "f1_score"] else ms)).results_b =
      ⟨0, []⟩ := by
  refine ⟨?_, rfl, rfl, rfl⟩
  simp [create_test, hvs, hf]

/-- Witness for the amended C8, with an out-of-range `traffic_split = 7`
and an empty metrics list. -/
theorem c8_create_no_validation_witness :
    create_test wState "t9" "exp3" "sim" "va" "vb" 7 [] =
      (some (newTest "exp3" "sim" "va" "vb" 7
          (if List.isEmpty ([] : List String) then
            ["accuracy", "f1_score"] else [])),
        { wState with tests := insertA wState.tests "t9"
                                 (newTest "exp3" "sim" "va" "vb" 7
                                   (if List.isEmpty ([] : List String) then
                                     ["accuracy", "f1_score"] else [])) }) ∧
    (newTest "exp3" "sim" "va" "vb" 7
        (if List.isEmpty ([] : List String) then
          ["accuracy", "f1_score"] else [])).status = .running ∧
    (newTest "exp3" "sim" "va" "vb" 7
        (if List.isEmpty ([] : List String) then
          ["accuracy", "f1_score"] else [])).results_a = ⟨0, []⟩ ∧
    (newTest "exp3" "sim" "va" "vb" 7
        (if List.isEmpty ([] : List String) then
          ["accuracy", "f1_score"] else [])).results_b = ⟨0, []⟩ :=
  c8_create_no_validation wState "t9" "exp3" "sim" "va" "vb" 7 []
    [wVb, wVa] rfl rfl

/-! ### Untracked metrics (C10) -/

theorem alookup_isSome_of_mem {α : Type} (l : List (String × α))
    (k : String) (h : k ∈ akeys l) : (alookup l k).isSome := by
  induction l with
  | nil => simp [akeys] at h
  | cons p rest ih =>
      obtain ⟨a, b⟩ := p
      by_cases ha : a = k
      · simp [alookup, ha]
      · simp only [akeys, List.map_cons, List.mem_cons] at h
        rcases h with h | h
        · exact absurd h.symm ha
        · simp [alookup, ha, ih h]

theorem not_mem_of_alookup_none {α : Type} (l : List (String × α))
    (k : String) (h : alookup l k = none) : k ∉ akeys l := by
  intro hmem
  have := alookup_isSome_of_mem l k hmem
  rw [h] at this
  simp at this

theorem alookup_append_singleton_ne {α : Type} (l : List (String × α))
    (m q : String) (x : α) (h : q ≠ m) :
    alookup (l ++ [(m, x)]) q = alookup l q := by
  induction l with
  | nil => simp [alookup, Ne.symm h]
  | cons p rest ih =>
      obtain ⟨a, b⟩ := p
      by_cases ha : a = q <;> simp [alookup, ha, ih]

theorem alookup_append_singleton_self {α : Type} (l : List (String × α))
    (m : String) (x : α) (h : alookup l m = none) :
    alookup (l ++ [(m, x)]) m = some x := by
  induction l with
  | nil => simp [alookup]
  | cons p rest ih =>
      obtain ⟨a, b⟩ := p
      by_cases ha : a = m
      · simp [alookup, ha] at h
      · simp [alookup, ha] at h ⊢
        exact ih h

theorem computeComparisons_congr (tracked : List String)
    (aS1 bS1 aS2 bS2 : List (String × ArmStat))
    (h : ∀ q ∈ tracked, alookup aS1 q = alookup aS2 q ∧
      alookup bS1 q = alookup bS2 q) :
    computeComparisons tracked aS1 bS1 =
      computeComparisons tracked aS2 bS2 := by
  induction tracked with
  | nil => rfl
  | cons q rest ih =>
      have hq := h q (List.mem_cons_self q rest)
      have hrest := ih (fun r hr => h r (List.mem_cons_of_mem q hr))
      have h1 := hq.1
      have h2 := hq.2
      cases ha2 : alookup aS2 q with
      | none =>
          rw [ha2] at h1
          simp [computeComparisons, h1, ha2] at hrest ⊢
          exact hrest
      | some a =>
          rw [ha2] at h1
          cases hb2 : alookup bS2 q with
          | none =>
              rw [hb2] at h2
              simp [computeComparisons, h1, h2, ha2, hb2] at hrest ⊢
              exact hrest
          | some b =>
              rw [hb2] at h2
              simp [computeComparisons, h1, h2, ha2, hb2] at hrest ⊢
              exact hrest

/-- Claim C10: a running experiment accepts a reported metric that is not
in `tracked_metrics`: the first report lazily installs the zero triple
and accumulates `n` samples of `v` into it; at `end` the metric appears
in that arm's final statistics, but comparison keys always come from
`tracked_metrics` (so it gets no comparison entry) and the declared
winner is exactly the winner of the experiment without the extra
report. -/
theorem c10_untracked_metrics (s : ABState) (test_id ver m : String)
    (v : ℚ) (n : Nat) (t : ABTest)
    (ht : alookup s.tests test_id = some t) (hr : t.status = .running)
    (harm : ver = t.version_a ∨ ver = t.version_b)
    (hun : m ∉ t.metrics)
    (hfresh : armTriple s test_id ver m = none)
    (hn : 0 < n)
    (hnda : (akeys t.results_a.metrics).Nodup)
    (hndb : (akeys t.results_b.metrics).Nodup) :
    (update_test_metrics s test_id ver [(m, v)] n).1 = true ∧
    armTriple ((update_test_metrics s test_id ver [(m, v)] n).2)
        test_id ver m = some (bumpStats zeroStats v n) ∧
    (((end_test ((update_test_metrics s test_id ver [(m, v)] n).2)
          test_id).1.bind ABTest.final_metrics).map
        (fun fm => (alookup
          (if ver = t.version_a then fm.version_a else fm.version_b)
          m).isSome)) = some true ∧
    (((end_test ((update_test_metrics s test_id ver [(m, v)] n).2)
          test_id).1.bind ABTest.final_metrics).map
        (fun fm => decide (akeys fm.comparisons ⊆ t.metrics ∧
          m ∉ akeys fm.comparisons))) = some true ∧
    (((end_test ((update_test_metrics s test_id ver [(m, v)] n).2)
          test_id).1.bind ABTest.final_metrics).map FinalMetrics.winner) =
      (((end_test s test_id).1.bind ABTest.final_metrics).map
        FinalMetrics.winner) := by
  by_cases hva : ver = t.version_a
  · rw [update_spec_a s test_id ver [(m, v)] n t ht hr hva]
    have hf : alookup t.results_a.metrics m = none := by
      simpa [armTriple, ht, hva] using hfresh
    have hnotmem : m ∉ akeys t.results_a.metrics :=
      not_mem_of_alookup_none _ _ hf
    have hins : (recordArm t.results_a [(m, v)] n).metrics =
        t.results_a.metrics ++ [(m, bumpStats zeroStats v n)] := by
      rw [recordArm_single]
      simp [hf, insertA_of_not_mem _ _ _ hnotmem]
    have hslook : alookup (insertA s.tests test_id
        (setArm t true (recordArm t.results_a [(m, v)] n))) test_id =
        some (setArm t true (recordArm t.results_a [(m, v)] n)) :=
      alookup_insertA_self _ _ _
    have hstat : (setArm t true
        (recordArm t.results_a [(m, v)] n)).status = .running := by
      simp [setArm, hr]
    have hend := end_test_spec
      { s with tests := insertA s.tests test_id
                          (setArm t true (recordArm t.results_a [(m, v)] n)) }
      test_id _ hslook hstat
    have hndA' : (akeys (t.results_a.metrics ++
        [(m, bumpStats zeroStats v n)])).Nodup := by
      rw [akeys_append]
      rw [List.nodup_append]
      refine ⟨hnda, by simp [akeys], ?_⟩
      intro x hx hx2
      simp [akeys] at hx2
      subst hx2
      exact hnotmem hx
    have hlookA_m : alookup (computeArmStats (t.results_a.metrics ++
        [(m, bumpStats zeroStats v n)])) m =
        some (mkArmStat (bumpStats zeroStats v n)) := by
      rw [alookup_computeArmStats _ hndA',
        alookup_append_singleton_self _ _ _ hf]
      simp [bumpStats, zeroStats, hn]
    have hlookA_q : ∀ q, q ≠ m →
        alookup (computeArmStats (t.results_a.metrics ++
          [(m, bumpStats zeroStats v n)])) q =
        alookup (computeArmStats t.results_a.metrics) q := by
      intro q hq
      rw [alookup_computeArmStats _ hndA', alookup_computeArmStats _ hnda,
        alookup_append_singleton_ne _ _ _ _ hq]
    have hcompseq : computeComparisons t.metrics
        (computeArmStats (t.results_a.metrics ++
          [(m, bumpStats zeroStats v n)]))
        (computeArmStats t.results_b.metrics) =
        computeComparisons t.metrics
          (computeArmStats t.results_a.metrics)
          (computeArmStats t.results_b.metrics) :=
      computeComparisons_congr _ _ _ _ _
        (fun q hqmem => ⟨hlookA_q q (fun he => hun (he ▸ hqmem)), rfl⟩)
    refine ⟨rfl, ?_, ?_, ?_, ?_⟩
    · simp only [armTriple, hslook]
      simp only [setArm]
      simp [hva, hins, alookup_append_singleton_self _ _ _ hf]
    · rw [hend]
      simp [endedTest, setArm, hins, hva, hlookA_m]
    · rw [hend]
      simp only [endedTest, setArm, hins, hva]
      simp [decide_eq_true_eq]
      refine ⟨akeys_computeComparisons_subset _ _ _,
        fun hmem => hun (akeys_computeComparisons_subset _ _ _ hmem)⟩
    · rw [hend, end_test_spec s test_id t ht hr]
      simp [endedTest, setArm, hins, hcompseq]
  · rcases harm with h | hvb
    · exact absurd h hva
    · rw [update_spec_b s test_id ver [(m, v)] n t ht hr hva hvb]
      have hva' : ¬ t.version_b = t.version_a := hvb ▸ hva
      have hf : alookup t.results_b.metrics m = none := by
        simpa [armTriple, ht, hvb, hva'] using hfresh
      have hnotmem : m ∉ akeys t.results_b.metrics :=
        not_mem_of_alookup_none _ _ hf
      have hins : (recordArm t.results_b [(m, v)] n).metrics =
          t.results_b.metrics ++ [(m, bumpStats zeroStats v n)] := by
        rw [recordArm_single]
        simp [hf, insertA_of_not_mem _ _ _ hnotmem]
      have hslook : alookup (insertA s.tests test_id
          (setArm t false (recordArm t.results_b [(m, v)] n))) test_id =
          some (setArm t false (recordArm t.results_b [(m, v)] n)) :=
        alookup_insertA_self _ _ _
      have hstat : (setArm t false
          (recordArm t.results_b [(m, v)] n)).status = .running := by
        simp [setArm, hr]
      have hend := end_test_spec
        { s with tests := insertA s.tests test_id
                            (setArm t false
                              (recordArm t.results_b [(m, v)] n)) }
        test_id _ hslook hstat
      have hndB' : (akeys (t.results_b.metrics ++
          [(m, bumpStats zeroStats v n)])).Nodup := by
        rw [akeys_append]
        rw [List.nodup_append]
        refine ⟨hndb, by simp [akeys], ?_⟩
        intro x hx hx2
        simp [akeys] at hx2
        subst hx2
        exact hnotmem hx
      have hlookB_m : alookup (computeArmStats (t.results_b.metrics ++
          [(m, bumpStats zeroStats v n)])) m =
          some (mkArmStat (bumpStats zeroStats v n)) := by
        rw [alookup_computeArmStats _ hndB',
          alookup_append_singleton_self _ _ _ hf]
        simp [bumpStats, zeroStats, hn]
      have hlookB_q : ∀ q, q ≠ m →
          alookup (computeArmStats (t.results_b.metrics ++
            [(m, bumpStats zeroStats v n)])) q =
          alookup (computeArmStats t.results_b.metrics) q := by
        intro q hq
        rw [alookup_computeArmStats _ hndB',
          alookup_computeArmStats _ hndb,
          alookup_append_singleton_ne _ _ _ _ hq]
      have hcompseq : computeComparisons t.metrics
          (computeArmStats t.results_a.metrics)
          (computeArmStats (t.results_b.metrics ++
            [(m, bumpStats zeroStats v n)])) =
          computeComparisons t.metrics
            (computeArmStats t.results_a.metrics)
            (computeArmStats t.results_b.metrics) :=
        computeComparisons_congr _ _ _ _ _
          (fun q hqmem => ⟨rfl, hlookB_q q (fun he => hun (he ▸ hqmem))⟩)
      refine ⟨rfl, ?_, ?_, ?_, ?_⟩
      · simp only [armTriple, hslook]
        simp only [setArm]
        simp [hva', hvb, hins, alookup_append_singleton_self _ _ _ hf]
      · rw [hend]
        simp [endedTest, setArm, hins, hva', hvb, hlookB_m]
      · rw [hend]
        simp only [endedTest, setArm, hins, hva]
        simp [decide_eq_true_eq]
        refine ⟨akeys_computeComparisons_subset _ _ _,
          fun hmem => hun (akeys_computeComparisons_subset _ _ _ hmem)⟩
      · rw [hend, end_test_spec s test_id t ht hr]
        simp [endedTest, setArm, hins, hcompseq]

/-- Witness for C10: reporting 3 samples of value 2 for the untracked
metric `latency` on arm `va` of the running experiment `t1`. -/
theorem c10_untracked_metrics_witness :
    (update_test_metrics wState "t1" "va" [("latency", 2)] 3).1 = true ∧
    armTriple ((update_test_metrics wState "t1" "va" [("latency", 2)] 3).2)
        "t1" "va" "latency" = some (bumpStats zeroStats 2 3) ∧
    (((end_test ((update_test_metrics wState "t1" "va"
            [("latency", 2)] 3).2) "t1").1.bind ABTest.final_metrics).map
        (fun fm => (alookup
          (if "va" = wTest.version_a then fm.version_a else fm.version_b)
          "latency").isSome)) = some true ∧
    (((end_test ((update_test_metrics wState "t1" "va"
            [("latency", 2)] 3).2) "t1").1.bind ABTest.final_metrics).map
        (fun fm => decide (akeys fm.comparisons ⊆ wTest.metrics ∧
          "latency" ∉ akeys fm.comparisons))) = some true ∧
    (((end_test ((update_test_metrics wState "t1" "va"
            [("latency", 2)] 3).2) "t1").1.bind ABTest.final_metrics).map
        FinalMetrics.winner) =
      (((end_test wState "t1").1.bind ABTest.final_metrics).map
        FinalMetrics.winner) :=
  c10_untracked_metrics wState "t1" "va" "latency" 2 3 wTest rfl rfl
    (Or.inl rfl) (by decide) rfl (by decide) (by decide) (by decide)

end AutoGrader
